import Mathlib

/-!
Verification of the Fourier-series numerical engine (fourier_logic.py).

The engine is shallowly embedded over the real numbers: numpy float64
arrays become lists of reals, elementwise array arithmetic becomes
List.map / List.zipWith, and python-level exceptions become an Except
value.  The only places the python code can raise are modelled
explicitly:
  * constructing the analyzer with period = 0 raises ZeroDivisionError
    (the expression 2*pi/period divides python floats);
  * np.zeros(n) with n < 0 raises ValueError, so compute_coefficients
    with a negative harmonic count raises;
  * binary array operations on 1-d arrays of different lengths raise
    ValueError unless one of the operands has length 1, in which case
    numpy silently broadcasts it; np.max of an empty array raises.
-/

namespace FourierLogic

/-- The python exceptions the engine can surface. -/
inductive PyErr where
  | valueError
  | zeroDivisionError
  deriving DecidableEq

open scoped Classical in
/-- numpy 1-d broadcasting for a binary operation: an operand of length 1
is stretched to the length of the other operand; otherwise both operands are
returned unchanged (callers guard the incompatible case). -/
noncomputable def bcastPair (o r : List ℝ) : List ℝ × List ℝ :=
  if o.length = 1 then (List.replicate r.length (o.getD 0 0), r)
  else if r.length = 1 then (o, List.replicate o.length (r.getD 0 0))
  else (o, r)

/-- np.linspace 0 stop num (endpoint=False): the num points i*(stop/num). -/
noncomputable def linspace0 (stop : ℝ) (num : ℕ) : List ℝ :=
  (List.range num).map fun i : ℕ => (i : ℝ) * (stop / num)

/-- np.trapz y x: the trapezoidal rule over sample points x; zero when
fewer than two samples are given. -/
noncomputable def trapz : List ℝ → List ℝ → ℝ
  | y0 :: y1 :: ys, x0 :: x1 :: xs =>
      (x1 - x0) * (y0 + y1) / 2 + trapz (y1 :: ys) (x1 :: xs)
  | _, _ => 0

/-- The analyzer object: its only state is the configured period. -/
structure FourierSeriesAnalyzer where
  period : ℝ

namespace FourierSeriesAnalyzer

/-- self.omega0 = 2*np.pi/period, computed in init from the period. -/
noncomputable def omega0 (A : FourierSeriesAnalyzer) : ℝ :=
  2 * Real.pi / A.period

open scoped Classical in
/-- init(period): python raises ZeroDivisionError computing 2*pi/period
when period = 0; any nonzero (also negative) period is accepted. -/
noncomputable def init (period : ℝ) : Except PyErr FourierSeriesAnalyzer :=
  if period = 0 then .error .zeroDivisionError else .ok ⟨period⟩

/-- The sample grid of compute_coefficients:
t = np.linspace(0, self.period, n_points, endpoint=False). -/
noncomputable def tGrid (A : FourierSeriesAnalyzer) (n_points : ℕ) : List ℝ :=
  linspace0 A.period n_points

/-- a0 = (2/period) * np.trapz(f_samples, t). -/
noncomputable def a0Val (A : FourierSeriesAnalyzer) (f : ℝ → ℝ) (n_points : ℕ) : ℝ :=
  (2 / A.period) * trapz ((A.tGrid n_points).map f) (A.tGrid n_points)

/-- The an array filled by the loop: an[k] = (2/period) *
np.trapz(f_samples * cos((k+1) * omega0 * t), t) (loop index n = k+1). -/
noncomputable def anVal (A : FourierSeriesAnalyzer) (f : ℝ → ℝ)
    (n_harmonics n_points : ℕ) : List ℝ :=
  (List.range n_harmonics).map fun k : ℕ =>
    (2 / A.period) * trapz
      ((A.tGrid n_points).map fun tv => f tv * Real.cos (((k : ℝ) + 1) * A.omega0 * tv))
      (A.tGrid n_points)

/-- The bn array filled by the loop: bn[k] = (2/period) *
np.trapz(f_samples * sin((k+1) * omega0 * t), t). -/
noncomputable def bnVal (A : FourierSeriesAnalyzer) (f : ℝ → ℝ)
    (n_harmonics n_points : ℕ) : List ℝ :=
  (List.range n_harmonics).map fun k : ℕ =>
    (2 / A.period) * trapz
      ((A.tGrid n_points).map fun tv => f tv * Real.sin (((k : ℝ) + 1) * A.omega0 * tv))
      (A.tGrid n_points)

/-- compute_coefficients(func, n_harmonics, n_points): np.zeros raises
ValueError for a negative harmonic count; otherwise the triple
(a0, an, bn) is returned.  No other input is checked: n_points below 2
produces a degenerate grid whose trapezoidal integrals are 0. -/
noncomputable def compute_coefficients (A : FourierSeriesAnalyzer) (f : ℝ → ℝ)
    (n_harmonics : ℤ) (n_points : ℕ) : Except PyErr (ℝ × List ℝ × List ℝ) :=
  if n_harmonics < 0 then .error .valueError
  else .ok (A.a0Val f n_points,
            A.anVal f n_harmonics.toNat n_points,
            A.bnVal f n_harmonics.toNat n_points)

end FourierSeriesAnalyzer

/-- a0/2 * np.ones_like(t): the DC-only signal. -/
noncomputable def dcSignal (a0 : ℝ) (t : List ℝ) : List ℝ :=
  t.map fun _ => a0 / 2

/-- signal += a * np.cos((n+1) * omega0 * t), elementwise over t. -/
noncomputable def addCosTerm (ω0 a : ℝ) (n : ℕ) (signal t : List ℝ) : List ℝ :=
  List.zipWith (fun s tv => s + a * Real.cos (((n : ℝ) + 1) * ω0 * tv)) signal t

/-- signal += b * np.sin((n+1) * omega0 * t), elementwise over t. -/
noncomputable def addSinTerm (ω0 b : ℝ) (n : ℕ) (signal t : List ℝ) : List ℝ :=
  List.zipWith (fun s tv => s + b * Real.sin (((n : ℝ) + 1) * ω0 * tv)) signal t

/-- The loop of synthesize_progressive: starting at loop index n with the
running signal, peel one coefficient pair per iteration, append the
updated signal after each.  (The python loop runs for n in
range(len(an)) and reads bn[n]; on lists of equal length — the data
model invariant, assumed by every theorem below — stopping when either
list is exhausted agrees with it.) -/
noncomputable def progAux (ω0 : ℝ) (t : List ℝ) :
    List ℝ → List ℝ → ℕ → List ℝ → List (List ℝ)
  | a :: an, b :: bn, n, signal =>
      let signal' := addSinTerm ω0 b n (addCosTerm ω0 a n signal t) t
      signal' :: progAux ω0 t an bn (n + 1) signal'
  | _, _, _, _ => []

/-- synthesize_progressive(a0, an, bn, t): the list of reconstructions,
first the DC-only signal, then one entry per harmonic added. -/
noncomputable def FourierSeriesAnalyzer.synthesize_progressive
    (A : FourierSeriesAnalyzer) (a0 : ℝ) (an bn t : List ℝ) : List (List ℝ) :=
  dcSignal a0 t :: progAux A.omega0 t an bn 0 (dcSignal a0 t)

/-- The loop of synthesize_selective: for n, enabled in
enumerate(enabled_harmonics), add harmonic n+1 iff enabled and
n < len(an). -/
noncomputable def selAux (ω0 : ℝ) (an bn t : List ℝ) :
    List Bool → ℕ → List ℝ → List ℝ
  | [], _, signal => signal
  | e :: mask, n, signal =>
      selAux ω0 an bn t mask (n + 1)
        (if e = true ∧ n < an.length then
          addSinTerm ω0 (bn.getD n 0) n (addCosTerm ω0 (an.getD n 0) n signal t) t
         else signal)

/-- synthesize_selective(a0, an, bn, t, enabled_harmonics). -/
noncomputable def FourierSeriesAnalyzer.synthesize_selective
    (A : FourierSeriesAnalyzer) (a0 : ℝ) (an bn t : List ℝ)
    (enabled_harmonics : List Bool) : List ℝ :=
  selAux A.omega0 an bn t enabled_harmonics 0 (dcSignal a0 t)

/-- np.mean. -/
noncomputable def npMean (x : List ℝ) : ℝ := x.sum / x.length

/-- np.std (population standard deviation). -/
noncomputable def npStd (x : List ℝ) : ℝ :=
  Real.sqrt (npMean (x.map fun v => (v - npMean x) ^ 2))

/-- np.max over a non-empty list (numpy raises on an empty array; the
callers below guard that case with an error). -/
noncomputable def npMax : List ℝ → ℝ
  | [] => 0
  | x :: xs => xs.foldl max x

/-- The fixed additive epsilon guard 1e-12. -/
noncomputable def metricsEps : ℝ := 1 / 10 ^ 12

/-- The record returned by compute_metrics. -/
structure MetricsResult where
  rms_error : ℝ
  max_error : ℝ
  snr_db : ℝ
  relative_error : ℝ

open scoped Classical in
/-- compute_metrics(original, reconstructed).  Arrays of different
lengths raise ValueError from broadcasting unless one has length 1,
which numpy broadcasts silently; np.max over an empty difference raises.
Otherwise: rms = sqrt(mean((o-r)^2)), max = max|o-r|,
snr = 20*log10(std(original)/(rms+1e-12)), rel = rms/(std(original)+1e-12). -/
noncomputable def compute_metrics (original reconstructed : List ℝ) :
    Except PyErr MetricsResult :=
  if original.length ≠ reconstructed.length ∧ original.length ≠ 1 ∧
      reconstructed.length ≠ 1 then .error .valueError
  else
    let p := bcastPair original reconstructed
    if p.1.length = 0 then .error .valueError
    else
      let rms := Real.sqrt (npMean (List.zipWith (fun a b => (a - b) ^ 2) p.1 p.2))
      .ok { rms_error := rms,
            max_error := npMax (List.zipWith (fun a b => |a - b|) p.1 p.2),
            snr_db := 20 * Real.logb 10 (npStd original / (rms + metricsEps)),
            relative_error := rms / (npStd original + metricsEps) }

/-- np.arctan2(y, x): the angle of the point (x, y), in (-pi, pi]. -/
noncomputable def arctan2 (y x : ℝ) : ℝ := Complex.arg ⟨x, y⟩

open scoped Classical in
/-- Insert index i into an ascending-by-value run of indices, after any
index with a key not exceeding key i. -/
noncomputable def argsortInsert (xs : List ℝ) (i : ℕ) : List ℕ → List ℕ
  | [] => [i]
  | j :: rest =>
      if xs.getD j 0 ≤ xs.getD i 0 then j :: argsortInsert xs i rest
      else i :: j :: rest

/-- np.argsort(xs): indices ordered by ascending value.  the numpy default
sort leaves the order of equal keys unspecified; this model breaks ties
by ascending index.  No theorem below depends on the tie order (the
claims only evaluate this on the empty list). -/
noncomputable def npArgsort (xs : List ℝ) : List ℕ :=
  (List.range xs.length).foldl (fun acc i => argsortInsert xs i acc) []

/-- The record returned by get_harmonic_analysis. -/
structure HarmonicAnalysis where
  magnitude : List ℝ
  phase : List ℝ
  power : List ℝ
  total_power : ℝ
  power_percentage : List ℝ
  dominant_harmonics : List ℕ
  fundamental_power : ℝ
  thd : ℝ

open scoped Classical in
/-- get_harmonic_analysis(an, bn).  Arrays of different lengths raise
ValueError from broadcasting in an**2 + bn**2 unless one has length 1
(silently broadcast).  magnitude = sqrt(an^2+bn^2),
phase = arctan2(bn, an), power = magnitude^2, total_power = sum(power),
power_percentage = power/(total_power+1e-12)*100, dominant_harmonics =
argsort(magnitude)[-5:][::-1] + 1, fundamental_power = power[0] (0 when
empty), thd = sqrt(sum(power[1:])/(power[0]+1e-12))*100 (0 when empty). -/
noncomputable def get_harmonic_analysis (an bn : List ℝ) :
    Except PyErr HarmonicAnalysis :=
  if an.length ≠ bn.length ∧ an.length ≠ 1 ∧ bn.length ≠ 1 then
    .error .valueError
  else
    let p := bcastPair an bn
    let magnitude := List.zipWith (fun a b => Real.sqrt (a ^ 2 + b ^ 2)) p.1 p.2
    let power := magnitude.map fun m => m ^ 2
    let total_power := power.sum
    .ok { magnitude := magnitude,
          phase := List.zipWith (fun a b => arctan2 b a) p.1 p.2,
          power := power,
          total_power := total_power,
          power_percentage := power.map fun pw => pw / (total_power + metricsEps) * 100,
          dominant_harmonics :=
            (((npArgsort magnitude).drop ((npArgsort magnitude).length - 5)).reverse).map
              fun i => i + 1,
          fundamental_power := if 0 < power.length then power.getD 0 0 else 0,
          thd := if 0 < power.length then
              Real.sqrt ((power.drop 1).sum / (power.getD 0 0 + metricsEps)) * 100
            else 0 }

/-- Python values as the export boundary sees them: plain floats, plain
lists, dicts, and numpy arrays (float and integer) left unconverted.
numpy float scalars subclass the python float and are modelled as
pyFloat; ndarrays are a distinct, non-JSON-encodable object. -/
inductive PyVal where
  | pyFloat (x : ℝ)
  | pyList (xs : List PyVal)
  | ndarrayF (xs : List ℝ)
  | ndarrayI (xs : List ℕ)
  | pyDict (fields : List (String × PyVal))

/-- A value is JSON-encodable iff no numpy ndarray occurs in any leaf. -/
def PyVal.jsonSafe : PyVal → Bool
  | .pyFloat _ => true
  | .ndarrayF _ => false
  | .ndarrayI _ => false
  | .pyList xs => xs.attach.all fun x => x.1.jsonSafe
  | .pyDict fs => fs.attach.all fun f => f.1.2.jsonSafe
decreasing_by
  · have h := List.sizeOf_lt_of_mem x.2
    simp only [PyVal.pyList.sizeOf_spec]
    omega
  · have h := List.sizeOf_lt_of_mem f.2
    have h2 : sizeOf f.1.2 < sizeOf f.1 := by
      rcases f with ⟨⟨s, v⟩, hf⟩
      simp
    simp only [PyVal.pyDict.sizeOf_spec]
    omega

/-- export_data(t, original, reconstructed, a0, an, bn): the record the
engine hands to external consumers.  time, the two signals and the
coefficients are converted with tolist()/float(); the analysis dict is
returned as get_harmonic_analysis produced it, its array values still
numpy ndarrays; the metrics values are numpy float scalars. -/
noncomputable def FourierSeriesAnalyzer.export_data (_A : FourierSeriesAnalyzer)
    (t original reconstructed : List ℝ) (a0 : ℝ) (an bn : List ℝ) :
    Except PyErr PyVal := do
  let analysis ← get_harmonic_analysis an bn
  let metrics ← compute_metrics original reconstructed
  pure (.pyDict [
    ("time", .pyList (t.map .pyFloat)),
    ("original_signal", .pyList (original.map .pyFloat)),
    ("reconstructed_signal", .pyList (reconstructed.map .pyFloat)),
    ("coefficients", .pyDict [
      ("a0", .pyFloat a0),
      ("an", .pyList (an.map .pyFloat)),
      ("bn", .pyList (bn.map .pyFloat))]),
    ("analysis", .pyDict [
      ("magnitude", .ndarrayF analysis.magnitude),
      ("phase", .ndarrayF analysis.phase),
      ("power", .ndarrayF analysis.power),
      ("total_power", .pyFloat analysis.total_power),
      ("power_percentage", .ndarrayF analysis.power_percentage),
      ("dominant_harmonics", .ndarrayI analysis.dominant_harmonics),
      ("fundamental_power", .pyFloat analysis.fundamental_power),
      ("thd", .pyFloat analysis.thd)]),
    ("metrics", .pyDict [
      ("rms_error", .pyFloat metrics.rms_error),
      ("max_error", .pyFloat metrics.max_error),
      ("snr_db", .pyFloat metrics.snr_db),
      ("relative_error", .pyFloat metrics.relative_error)])])

/-- The contribution of harmonic k+1 at time tv, the formula the
specification assigns to coefficient pair (an[k], bn[k]). -/
noncomputable def harmonicContrib (ω0 : ℝ) (an bn : List ℝ) (k : ℕ) (tv : ℝ) : ℝ :=
  an.getD k 0 * Real.cos (((k : ℝ) + 1) * ω0 * tv) +
  bn.getD k 0 * Real.sin (((k : ℝ) + 1) * ω0 * tv)

/-- Pointwise value accumulated by the selective-synthesis loop from
mask position n onward. -/
noncomputable def selScalar (ω0 : ℝ) (an bn : List ℝ) : List Bool → ℕ → ℝ → ℝ
  | [], _, _ => 0
  | e :: mask, n, tv =>
      (if e = true ∧ n < an.length then harmonicContrib ω0 an bn n tv else 0) +
      selScalar ω0 an bn mask (n + 1) tv

theorem zipWith_map_left_self (f : ℝ → ℝ → ℝ) (g : ℝ → ℝ) (t : List ℝ) :
    List.zipWith f (t.map g) t = t.map fun tv => f (g tv) tv := by
  induction t with
  | nil => rfl
  | cons a l ih => simp [ih]

theorem addCosTerm_map (ω0 a : ℝ) (n : ℕ) (g : ℝ → ℝ) (t : List ℝ) :
    addCosTerm ω0 a n (t.map g) t =
      t.map fun tv => g tv + a * Real.cos (((n : ℝ) + 1) * ω0 * tv) := by
  simp [addCosTerm, zipWith_map_left_self]

theorem addSinTerm_map (ω0 b : ℝ) (n : ℕ) (g : ℝ → ℝ) (t : List ℝ) :
    addSinTerm ω0 b n (t.map g) t =
      t.map fun tv => g tv + b * Real.sin (((n : ℝ) + 1) * ω0 * tv) := by
  simp [addSinTerm, zipWith_map_left_self]

theorem selAux_eq_map (ω0 : ℝ) (an bn t : List ℝ) (mask : List Bool) :
    ∀ (n : ℕ) (g : ℝ → ℝ),
      selAux ω0 an bn t mask n (t.map g) =
        t.map fun tv => g tv + selScalar ω0 an bn mask n tv := by
  induction mask with
  | nil => intro n g; simp [selAux, selScalar]
  | cons e mask ih =>
      intro n g
      by_cases hc : e = true ∧ n < an.length
      · rw [selAux, if_pos hc, addCosTerm_map, addSinTerm_map, ih]
        refine congrArg (fun F => t.map F) ?_
        funext tv
        rw [selScalar, if_pos hc, harmonicContrib]
        ring
      · rw [selAux, if_neg hc, ih]
        refine congrArg (fun F => t.map F) ?_
        funext tv
        rw [selScalar, if_neg hc]
        ring

theorem synthesize_selective_eq_map (A : FourierSeriesAnalyzer) (a0 : ℝ)
    (an bn t : List ℝ) (mask : List Bool) :
    A.synthesize_selective a0 an bn t mask =
      t.map fun tv => a0 / 2 + selScalar A.omega0 an bn mask 0 tv :=
  selAux_eq_map A.omega0 an bn t mask 0 fun _ => a0 / 2

theorem selScalar_eq_sum (ω0 : ℝ) (an bn : List ℝ) (mask : List Bool) :
    ∀ (n : ℕ) (tv : ℝ),
      selScalar ω0 an bn mask n tv =
        ∑ j ∈ Finset.range mask.length,
          (if mask.getD j false = true ∧ n + j < an.length then
            harmonicContrib ω0 an bn (n + j) tv else 0) := by
  induction mask with
  | nil => intro n tv; simp [selScalar]
  | cons e mask ih =>
      intro n tv
      rw [selScalar, ih (n + 1) tv, List.length_cons, Finset.sum_range_succ']
      rw [add_comm]
      congr 1
      refine Finset.sum_congr rfl fun j _ => ?_
      have h1 : (e :: mask).getD (j + 1) false = mask.getD j false := rfl
      have h2 : n + (j + 1) = n + 1 + j := by omega
      rw [h1, h2]

theorem sum_mask_reindex (N : ℕ) (mask : List Bool) (c : ℕ → ℝ) :
    (∑ j ∈ Finset.range mask.length,
        if mask.getD j false = true ∧ j < N then c j else 0) =
      ∑ k ∈ Finset.range N, if mask.getD k false = true then c k else 0 := by
  have hL : Finset.range mask.length ⊆ Finset.range (max mask.length N) :=
    Finset.range_subset.mpr (le_max_left _ _)
  have hR : Finset.range N ⊆ Finset.range (max mask.length N) :=
    Finset.range_subset.mpr (le_max_right _ _)
  rw [Finset.sum_subset hL ?hzL]
  case hzL =>
    intro x _ hx
    have hxm : mask.length ≤ x := by
      simpa using hx
    have hd : mask.getD x false = false := List.getD_eq_default _ _ hxm
    rw [hd]
    simp
  rw [show (∑ k ∈ Finset.range N, if mask.getD k false = true then c k else 0) =
      ∑ k ∈ Finset.range N, if mask.getD k false = true ∧ k < N then c k else 0 from
    Finset.sum_congr rfl fun k hk => by
      have : k < N := Finset.mem_range.mp hk
      simp [this]]
  rw [Finset.sum_subset hR ?hzR]
  case hzR =>
    intro x _ hx
    have hxN : N ≤ x := by simpa using hx
    have : ¬ x < N := not_lt.mpr hxN
    simp [this]

theorem progAux_length (ω0 : ℝ) (t : List ℝ) :
    ∀ (an bn : List ℝ) (n : ℕ) (signal : List ℝ),
      (progAux ω0 t an bn n signal).length = min an.length bn.length := by
  intro an
  induction an with
  | nil => intro bn n s; cases bn <;> simp [progAux]
  | cons a an ih =>
      intro bn n s
      cases bn with
      | nil => simp [progAux]
      | cons b bn => simp [progAux, ih, Nat.succ_min_succ]

theorem progAux_getD_succ (ω0 : ℝ) (t : List ℝ) :
    ∀ (an bn : List ℝ) (n i : ℕ) (signal : List ℝ),
      i < min an.length bn.length →
      (signal :: progAux ω0 t an bn n signal).getD (i + 1) [] =
        addSinTerm ω0 (bn.getD i 0) (n + i)
          (addCosTerm ω0 (an.getD i 0) (n + i)
            ((signal :: progAux ω0 t an bn n signal).getD i []) t) t := by
  intro an
  induction an with
  | nil => intro bn n i s h; simp at h
  | cons a an ih =>
      intro bn n i s h
      cases bn with
      | nil => simp at h
      | cons b bn =>
          cases i with
          | zero => simp [progAux]
          | succ j =>
              have h' : j < min an.length bn.length := by
                rw [List.length_cons, List.length_cons, Nat.succ_min_succ] at h
                omega
              have key := ih bn (n + 1) j (addSinTerm ω0 b n (addCosTerm ω0 a n s t) t) h'
              have hn : n + (j + 1) = n + 1 + j := by omega
              calc ((s :: progAux ω0 t (a :: an) (b :: bn) n s)).getD (j + 1 + 1) []
                  = ((addSinTerm ω0 b n (addCosTerm ω0 a n s t) t ::
                      progAux ω0 t an bn (n + 1)
                        (addSinTerm ω0 b n (addCosTerm ω0 a n s t) t))).getD (j + 1) [] := by
                    simp [progAux]
                _ = addSinTerm ω0 (bn.getD j 0) (n + 1 + j)
                      (addCosTerm ω0 (an.getD j 0) (n + 1 + j)
                        (((addSinTerm ω0 b n (addCosTerm ω0 a n s t) t ::
                           progAux ω0 t an bn (n + 1)
                             (addSinTerm ω0 b n (addCosTerm ω0 a n s t) t))).getD j []) t) t :=
                    key
                _ = addSinTerm ω0 ((b :: bn).getD (j + 1) 0) (n + (j + 1))
                      (addCosTerm ω0 ((a :: an).getD (j + 1) 0) (n + (j + 1))
                        (((s :: progAux ω0 t (a :: an) (b :: bn) n s)).getD (j + 1) []) t) t := by
                    rw [hn]
                    simp [progAux]

theorem synthesize_progressive_getD (A : FourierSeriesAnalyzer) (a0 : ℝ)
    (an bn t : List ℝ) (h : an.length = bn.length) :
    ∀ i, i ≤ an.length →
      (A.synthesize_progressive a0 an bn t).getD i [] =
        t.map fun tv =>
          a0 / 2 + ∑ k ∈ Finset.range i, harmonicContrib A.omega0 an bn k tv := by
  intro i
  induction i with
  | zero =>
      intro _
      simp [FourierSeriesAnalyzer.synthesize_progressive, dcSignal]
  | succ j ih =>
      intro hj
      have hj' : j ≤ an.length := by omega
      have hmin : j < min an.length bn.length := by omega
      have hstep := progAux_getD_succ A.omega0 t an bn 0 j (dcSignal a0 t) hmin
      simp only [Nat.zero_add] at hstep
      have hIH : (dcSignal a0 t :: progAux A.omega0 t an bn 0 (dcSignal a0 t)).getD j [] =
          t.map (fun tv =>
            a0 / 2 + ∑ k ∈ Finset.range j, harmonicContrib A.omega0 an bn k tv) :=
        ih hj'
      show (dcSignal a0 t :: progAux A.omega0 t an bn 0 (dcSignal a0 t)).getD (j + 1) [] = _
      rw [hstep, hIH, addCosTerm_map, addSinTerm_map]
      refine congrArg (fun F => t.map F) ?_
      funext tv
      rw [Finset.sum_range_succ, harmonicContrib]
      ring

theorem addSinTerm_addCosTerm (ω0 a b : ℝ) (n : ℕ) (signal t : List ℝ) :
    addSinTerm ω0 b n (addCosTerm ω0 a n signal t) t =
      List.zipWith
        (fun s tv => s + a * Real.cos (((n : ℝ) + 1) * ω0 * tv) +
                         b * Real.sin (((n : ℝ) + 1) * ω0 * tv)) signal t := by
  induction signal generalizing t with
  | nil => cases t <;> rfl
  | cons s ss ih =>
      cases t with
      | nil => rfl
      | cons tv ts => simp only [addCosTerm, addSinTerm, List.zipWith] at ih ⊢; rw [ih]

/-- The trapezoidal rule as the specification states it: the sum over
consecutive sample pairs of the segment width times the mean of the two
sample values.  Compared against the recursive embedding of np.trapz. -/
noncomputable def specTrapezoid (y x : List ℝ) : ℝ :=
  ∑ i ∈ Finset.range (x.length - 1),
    (x.getD (i + 1) 0 - x.getD i 0) * (y.getD i 0 + y.getD (i + 1) 0) / 2

theorem trapz_eq_specTrapezoid : ∀ (y x : List ℝ), y.length = x.length →
    trapz y x = specTrapezoid y x := by
  intro y
  induction y with
  | nil =>
      intro x h
      have hx : x = [] := by
        cases x with
        | nil => rfl
        | cons a l => simp at h
      subst hx
      simp [trapz, specTrapezoid]
  | cons y0 ytail ih =>
      intro x h
      cases x with
      | nil => simp at h
      | cons x0 xtail =>
          cases ytail with
          | nil =>
              have hx : xtail = [] := by
                cases xtail with
                | nil => rfl
                | cons a l => simp at h
              subst hx
              simp [trapz, specTrapezoid]
          | cons y1 ys =>
              cases xtail with
              | nil => simp at h
              | cons x1 xs =>
                  have h' : (y1 :: ys).length = (x1 :: xs).length := by
                    simpa using h
                  rw [trapz, ih (x1 :: xs) h', specTrapezoid, specTrapezoid]
                  simp only [List.length_cons, Nat.add_sub_cancel]
                  rw [Finset.sum_range_succ', add_comm]
                  congr 1

theorem getD_map_range {α : Type} (g : ℕ → α) (n i : ℕ) (hi : i < n) (d : α) :
    ((List.range n).map g).getD i d = g i := by
  rw [List.getD_eq_getElem?_getD, List.getElem?_map, List.getElem?_range hi]
  rfl

theorem tGrid_length (A : FourierSeriesAnalyzer) (n : ℕ) : (A.tGrid n).length = n := by
  show ((List.range n).map fun i : ℕ => (i : ℝ) * (A.period / n)).length = n
  rw [List.length_map, List.length_range]

theorem tGrid_getD (A : FourierSeriesAnalyzer) (n i : ℕ) (hi : i < n) :
    (A.tGrid n).getD i 0 = (i : ℝ) * (A.period / n) := by
  show ((List.range n).map fun j : ℕ => (j : ℝ) * (A.period / n)).getD i 0 = _
  exact getD_map_range _ _ _ hi 0

theorem tGrid_mem (A : FourierSeriesAnalyzer) (n : ℕ) (x : ℝ)
    (hx : x ∈ A.tGrid n) : ∃ i, i < n ∧ x = (i : ℝ) * (A.period / n) := by
  have hx' : x ∈ (List.range n).map fun i : ℕ => (i : ℝ) * (A.period / n) := hx
  obtain ⟨i, hi, rfl⟩ := List.mem_map.mp hx'
  exact ⟨i, List.mem_range.mp hi, rfl⟩

/-- C1: compute_coefficients samples f at n_points equally spaced points
covering [0, period) with the endpoint excluded, and returns a0 as
(2/period) times the trapezoidal integral of the samples and, for every
k below N, an[k] and bn[k] as (2/period) times the trapezoidal integrals
of f(t)*cos((k+1)*omega0*t) and f(t)*sin((k+1)*omega0*t), where
omega0 = 2*pi/period. -/
theorem claim_C1 (period : ℝ) (f : ℝ → ℝ) (N : ℤ) (n_points : ℕ)
    (hp : 0 < period) (hN : 0 ≤ N) (hnp : 2 ≤ n_points) :
    ((FourierSeriesAnalyzer.mk period).tGrid n_points).length = n_points ∧
    (∀ i, i < n_points →
      ((FourierSeriesAnalyzer.mk period).tGrid n_points).getD i 0 =
        (i : ℝ) * (period / n_points)) ∧
    (∀ i, i + 1 < n_points →
      ((FourierSeriesAnalyzer.mk period).tGrid n_points).getD (i + 1) 0 -
        ((FourierSeriesAnalyzer.mk period).tGrid n_points).getD i 0 =
          period / n_points) ∧
    (∀ x ∈ (FourierSeriesAnalyzer.mk period).tGrid n_points, 0 ≤ x ∧ x < period) ∧
    (FourierSeriesAnalyzer.mk period).compute_coefficients f N n_points =
      .ok ((2 / period) * specTrapezoid
            (((FourierSeriesAnalyzer.mk period).tGrid n_points).map f)
            ((FourierSeriesAnalyzer.mk period).tGrid n_points),
        (List.range N.toNat).map (fun k : ℕ =>
          (2 / period) * specTrapezoid
            (((FourierSeriesAnalyzer.mk period).tGrid n_points).map fun tv =>
              f tv * Real.cos (((k : ℝ) + 1) * (2 * Real.pi / period) * tv))
            ((FourierSeriesAnalyzer.mk period).tGrid n_points)),
        (List.range N.toNat).map (fun k : ℕ =>
          (2 / period) * specTrapezoid
            (((FourierSeriesAnalyzer.mk period).tGrid n_points).map fun tv =>
              f tv * Real.sin (((k : ℝ) + 1) * (2 * Real.pi / period) * tv))
            ((FourierSeriesAnalyzer.mk period).tGrid n_points))) := by
  have htz : ∀ (g : ℝ → ℝ) (t : List ℝ), trapz (t.map g) t = specTrapezoid (t.map g) t :=
    fun g t => trapz_eq_specTrapezoid _ _ (List.length_map t g)
  have hn0 : (0 : ℝ) < n_points := by
    have : 0 < n_points := by omega
    exact_mod_cast this
  refine ⟨tGrid_length _ _, ?_, ?_, ?_, ?_⟩
  · intro i hi
    exact tGrid_getD _ _ _ hi
  · intro i hi
    have h1 : i < n_points := by omega
    rw [tGrid_getD _ _ _ hi, tGrid_getD _ _ _ h1]
    push_cast
    ring
  · intro x hx
    obtain ⟨i, hi, rfl⟩ := tGrid_mem _ _ _ hx
    refine ⟨mul_nonneg (Nat.cast_nonneg i) (div_nonneg hp.le hn0.le), ?_⟩
    calc (i : ℝ) * ((FourierSeriesAnalyzer.mk period).period / n_points)
        < (n_points : ℝ) * ((FourierSeriesAnalyzer.mk period).period / n_points) := by
          refine mul_lt_mul_of_pos_right ?_ (div_pos hp hn0)
          exact_mod_cast hi
      _ = period := by field_simp
  · show (if N < 0 then Except.error PyErr.valueError else
      Except.ok ((FourierSeriesAnalyzer.mk period).a0Val f n_points,
        (FourierSeriesAnalyzer.mk period).anVal f N.toNat n_points,
        (FourierSeriesAnalyzer.mk period).bnVal f N.toNat n_points)) = _
    rw [if_neg (not_lt.mpr hN)]
    refine congrArg Except.ok (congrArg₂ Prod.mk ?_ (congrArg₂ Prod.mk ?_ ?_))
    · show (2 / (FourierSeriesAnalyzer.mk period).period) *
        trapz (((FourierSeriesAnalyzer.mk period).tGrid n_points).map f)
          ((FourierSeriesAnalyzer.mk period).tGrid n_points) = _
      rw [htz f]
    · refine List.map_congr_left fun k _ => ?_
      show (2 / (FourierSeriesAnalyzer.mk period).period) *
        trapz (((FourierSeriesAnalyzer.mk period).tGrid n_points).map fun tv =>
            f tv * Real.cos (((k : ℝ) + 1) * (FourierSeriesAnalyzer.mk period).omega0 * tv))
          ((FourierSeriesAnalyzer.mk period).tGrid n_points) = _
      rw [htz]
      rfl
    · refine List.map_congr_left fun k _ => ?_
      show (2 / (FourierSeriesAnalyzer.mk period).period) *
        trapz (((FourierSeriesAnalyzer.mk period).tGrid n_points).map fun tv =>
            f tv * Real.sin (((k : ℝ) + 1) * (FourierSeriesAnalyzer.mk period).omega0 * tv))
          ((FourierSeriesAnalyzer.mk period).tGrid n_points) = _
      rw [htz]
      rfl

/-- Witness for C1: period 1, the zero function, one harmonic, two
sample points. -/
theorem claim_C1_witness :
    (0 : ℝ) < 1 ∧ (0 : ℤ) ≤ 1 ∧ 2 ≤ 2 ∧
    (((FourierSeriesAnalyzer.mk (1 : ℝ)).tGrid 2).length = 2 ∧
    (∀ i, i < 2 →
      ((FourierSeriesAnalyzer.mk (1 : ℝ)).tGrid 2).getD i 0 =
        (i : ℝ) * (1 / (2 : ℕ))) ∧
    (∀ i, i + 1 < 2 →
      ((FourierSeriesAnalyzer.mk (1 : ℝ)).tGrid 2).getD (i + 1) 0 -
        ((FourierSeriesAnalyzer.mk (1 : ℝ)).tGrid 2).getD i 0 = 1 / (2 : ℕ)) ∧
    (∀ x ∈ (FourierSeriesAnalyzer.mk (1 : ℝ)).tGrid 2, 0 ≤ x ∧ x < 1) ∧
    (FourierSeriesAnalyzer.mk (1 : ℝ)).compute_coefficients (fun _ => 0) 1 2 =
      .ok ((2 / 1) * specTrapezoid
            (((FourierSeriesAnalyzer.mk (1 : ℝ)).tGrid 2).map fun _ => 0)
            ((FourierSeriesAnalyzer.mk (1 : ℝ)).tGrid 2),
        (List.range (1 : ℤ).toNat).map (fun k : ℕ =>
          (2 / 1) * specTrapezoid
            (((FourierSeriesAnalyzer.mk (1 : ℝ)).tGrid 2).map fun tv =>
              (fun _ => (0 : ℝ)) tv * Real.cos (((k : ℝ) + 1) * (2 * Real.pi / 1) * tv))
            ((FourierSeriesAnalyzer.mk (1 : ℝ)).tGrid 2)),
        (List.range (1 : ℤ).toNat).map (fun k : ℕ =>
          (2 / 1) * specTrapezoid
            (((FourierSeriesAnalyzer.mk (1 : ℝ)).tGrid 2).map fun tv =>
              (fun _ => (0 : ℝ)) tv * Real.sin (((k : ℝ) + 1) * (2 * Real.pi / 1) * tv))
            ((FourierSeriesAnalyzer.mk (1 : ℝ)).tGrid 2)))) :=
  ⟨by norm_num, by norm_num, by norm_num,
    claim_C1 1 (fun _ => 0) 1 2 (by norm_num) (by norm_num) (by norm_num)⟩

/-- C7: synthesize_selective adds the contribution of harmonic k+1 iff
mask[k] is true and k < N: the result is the DC term plus the sum over
k < N of the harmonic k+1 contribution gated on mask[k], where a mask
read past its end yields false (short masks behave as padded with
false) and mask entries at indices at or beyond N never contribute. -/
theorem claim_C7 (A : FourierSeriesAnalyzer) (a0 : ℝ) (an bn t : List ℝ)
    (mask : List Bool) (_h : an.length = bn.length) :
    A.synthesize_selective a0 an bn t mask =
      t.map fun tv =>
        a0 / 2 + ∑ k ∈ Finset.range an.length,
          if mask.getD k false = true then harmonicContrib A.omega0 an bn k tv
          else 0 := by
  rw [synthesize_selective_eq_map]
  refine congrArg (fun F => t.map F) ?_
  funext tv
  rw [selScalar_eq_sum]
  simp only [Nat.zero_add]
  exact congrArg (fun s => a0 / 2 + s)
    (sum_mask_reindex an.length mask fun k => harmonicContrib A.omega0 an bn k tv)

/-- Witness for C7 at a concrete input: two coefficients, mask enabling
only the second harmonic. -/
theorem claim_C7_witness :
    [(1 : ℝ), 0].length = [(0 : ℝ), 1].length ∧
    (FourierSeriesAnalyzer.mk 1).synthesize_selective 2 [(1 : ℝ), 0] [(0 : ℝ), 1]
        [(0 : ℝ), 1] [false, true] =
      [(0 : ℝ), 1].map fun tv =>
        2 / 2 + ∑ k ∈ Finset.range [(1 : ℝ), 0].length,
          if [false, true].getD k false = true then
            harmonicContrib (FourierSeriesAnalyzer.mk 1).omega0 [(1 : ℝ), 0] [(0 : ℝ), 1] k tv
          else 0 :=
  ⟨rfl, claim_C7 (FourierSeriesAnalyzer.mk 1) 2 [(1 : ℝ), 0] [(0 : ℝ), 1]
    [(0 : ℝ), 1] [false, true] rfl⟩

/-- C2: the last element (index N) of the progressive reconstruction
equals selective synthesis with the all-true mask of length N. -/
theorem claim_C2 (A : FourierSeriesAnalyzer) (a0 : ℝ) (an bn t : List ℝ)
    (h : an.length = bn.length) :
    (A.synthesize_progressive a0 an bn t).getD an.length [] =
      A.synthesize_selective a0 an bn t (List.replicate an.length true) := by
  rw [synthesize_progressive_getD A a0 an bn t h an.length le_rfl,
      synthesize_selective_eq_map]
  refine congrArg (fun F => t.map F) ?_
  funext tv
  congr 1
  rw [selScalar_eq_sum]
  simp only [Nat.zero_add, List.length_replicate]
  refine Finset.sum_congr rfl fun k hk => ?_
  have hk' : k < an.length := Finset.mem_range.mp hk
  have hmask : (List.replicate an.length true).getD k false = true := by
    rw [List.getD_eq_getElem?_getD, List.getElem?_replicate, if_pos hk']
    rfl
  rw [if_pos ⟨hmask, hk'⟩]

/-- Witness for C2 at a concrete input with one harmonic. -/
theorem claim_C2_witness :
    [(1 : ℝ)].length = [(2 : ℝ)].length ∧
    ((FourierSeriesAnalyzer.mk 1).synthesize_progressive 3 [(1 : ℝ)] [(2 : ℝ)]
        [(0 : ℝ)]).getD [(1 : ℝ)].length [] =
      (FourierSeriesAnalyzer.mk 1).synthesize_selective 3 [(1 : ℝ)] [(2 : ℝ)]
        [(0 : ℝ)] (List.replicate [(1 : ℝ)].length true) :=
  ⟨rfl, claim_C2 (FourierSeriesAnalyzer.mk 1) 3 [(1 : ℝ)] [(2 : ℝ)] [(0 : ℝ)] rfl⟩

/-- C3: the progressive reconstruction has exactly N+1 elements, element
0 is the constant a0/2 signal, and element i arises from element i-1 by
adding an[i-1]*cos(i*omega0*t) + bn[i-1]*sin(i*omega0*t) elementwise. -/
theorem claim_C3 (A : FourierSeriesAnalyzer) (a0 : ℝ) (an bn t : List ℝ)
    (h : an.length = bn.length) :
    (A.synthesize_progressive a0 an bn t).length = an.length + 1 ∧
    (A.synthesize_progressive a0 an bn t).getD 0 [] = t.map (fun _ => a0 / 2) ∧
    ∀ i, 1 ≤ i → i ≤ an.length →
      (A.synthesize_progressive a0 an bn t).getD i [] =
        List.zipWith
          (fun s tv => s + an.getD (i - 1) 0 * Real.cos ((i : ℝ) * A.omega0 * tv) +
                           bn.getD (i - 1) 0 * Real.sin ((i : ℝ) * A.omega0 * tv))
          ((A.synthesize_progressive a0 an bn t).getD (i - 1) []) t := by
  refine ⟨?_, ?_, ?_⟩
  · show (dcSignal a0 t :: progAux A.omega0 t an bn 0 (dcSignal a0 t)).length = _
    rw [List.length_cons, progAux_length]
    omega
  · rfl
  · intro i h1 h2
    obtain ⟨j, rfl⟩ : ∃ j, i = j + 1 := ⟨i - 1, by omega⟩
    simp only [Nat.add_sub_cancel]
    have hmin : j < min an.length bn.length := by omega
    have hstep := progAux_getD_succ A.omega0 t an bn 0 j (dcSignal a0 t) hmin
    simp only [Nat.zero_add] at hstep
    show (dcSignal a0 t :: progAux A.omega0 t an bn 0 (dcSignal a0 t)).getD (j + 1) [] = _
    rw [hstep, addSinTerm_addCosTerm]
    push_cast
    rfl

/-- Witness for C3 at a concrete input with one harmonic. -/
theorem claim_C3_witness :
    [(1 : ℝ)].length = [(2 : ℝ)].length ∧
    (((FourierSeriesAnalyzer.mk 1).synthesize_progressive 3 [(1 : ℝ)] [(2 : ℝ)]
        [(0 : ℝ), 1]).length = [(1 : ℝ)].length + 1 ∧
      ((FourierSeriesAnalyzer.mk 1).synthesize_progressive 3 [(1 : ℝ)] [(2 : ℝ)]
        [(0 : ℝ), 1]).getD 0 [] = [(0 : ℝ), 1].map (fun _ => 3 / 2) ∧
      ∀ i, 1 ≤ i → i ≤ [(1 : ℝ)].length →
        ((FourierSeriesAnalyzer.mk 1).synthesize_progressive 3 [(1 : ℝ)] [(2 : ℝ)]
            [(0 : ℝ), 1]).getD i [] =
          List.zipWith
            (fun s tv => s + [(1 : ℝ)].getD (i - 1) 0 *
                Real.cos ((i : ℝ) * (FourierSeriesAnalyzer.mk 1).omega0 * tv) +
              [(2 : ℝ)].getD (i - 1) 0 *
                Real.sin ((i : ℝ) * (FourierSeriesAnalyzer.mk 1).omega0 * tv))
            (((FourierSeriesAnalyzer.mk 1).synthesize_progressive 3 [(1 : ℝ)] [(2 : ℝ)]
                [(0 : ℝ), 1]).getD (i - 1) []) [(0 : ℝ), 1]) :=
  ⟨rfl, claim_C3 (FourierSeriesAnalyzer.mk 1) 3 [(1 : ℝ)] [(2 : ℝ)] [(0 : ℝ), 1] rfl⟩

/-- C4: synthesize_selective with an all-false mask, or with zero
coefficients, returns the constant a0/2 signal at every sample position;
the function is total, so this zero-harmonic case produces a value and
never an error. -/
theorem claim_C4 (A : FourierSeriesAnalyzer) (a0 : ℝ) (an bn t : List ℝ)
    (mask : List Bool) (h : (∀ b ∈ mask, b = false) ∨ an = []) :
    A.synthesize_selective a0 an bn t mask = t.map (fun _ => a0 / 2) ∧
    ∀ x ∈ A.synthesize_selective a0 an bn t mask, x = a0 / 2 := by
  have hzero : ∀ (m : List Bool), ((∀ b ∈ m, b = false) ∨ an = []) →
      ∀ (n : ℕ) (tv : ℝ), selScalar A.omega0 an bn m n tv = 0 := by
    intro m
    induction m with
    | nil => intro _ n tv; simp [selScalar]
    | cons e m ihm =>
        intro hm n tv
        have hcond : ¬ (e = true ∧ n < an.length) := by
          rcases hm with hall | hnil
          · rintro ⟨he, -⟩
            have := hall e (List.mem_cons_self e m)
            rw [this] at he
            exact Bool.false_ne_true he
          · rintro ⟨-, hlt⟩
            rw [hnil] at hlt
            simp at hlt
        have hm' : (∀ b ∈ m, b = false) ∨ an = [] := by
          rcases hm with hall | hnil
          · exact Or.inl fun b hb => hall b (List.mem_cons_of_mem e hb)
          · exact Or.inr hnil
        rw [selScalar, if_neg hcond, ihm hm' (n + 1) tv, add_zero]
  have heq : A.synthesize_selective a0 an bn t mask = t.map (fun _ => a0 / 2) := by
    rw [synthesize_selective_eq_map]
    refine congrArg (fun F => t.map F) ?_
    funext tv
    rw [hzero mask h 0 tv, add_zero]
  refine ⟨heq, ?_⟩
  intro x hx
  rw [heq] at hx
  obtain ⟨tv, -, rfl⟩ := List.mem_map.mp hx
  rfl

/-- Witness for C4 at a concrete input: one coefficient pair with the
all-false mask. -/
theorem claim_C4_witness :
    ((∀ b ∈ [false], b = false) ∨ [(1 : ℝ)] = []) ∧
    ((FourierSeriesAnalyzer.mk 1).synthesize_selective 4 [(1 : ℝ)] [(2 : ℝ)]
        [(0 : ℝ), 1] [false] = [(0 : ℝ), 1].map (fun _ => 4 / 2) ∧
      ∀ x ∈ (FourierSeriesAnalyzer.mk 1).synthesize_selective 4 [(1 : ℝ)] [(2 : ℝ)]
        [(0 : ℝ), 1] [false], x = 4 / 2) :=
  ⟨Or.inl (by simp), claim_C4 (FourierSeriesAnalyzer.mk 1) 4 [(1 : ℝ)] [(2 : ℝ)]
    [(0 : ℝ), 1] [false] (Or.inl (by simp))⟩

theorem trapz_single (y x : ℝ) : trapz [y] [x] = 0 := rfl

theorem a0Val_one (A : FourierSeriesAnalyzer) (f : ℝ → ℝ) : A.a0Val f 1 = 0 := by
  have h : trapz ((A.tGrid 1).map f) (A.tGrid 1) = 0 := rfl
  show (2 / A.period) * trapz ((A.tGrid 1).map f) (A.tGrid 1) = 0
  rw [h, mul_zero]

theorem anVal_one (A : FourierSeriesAnalyzer) (f : ℝ → ℝ) (N : ℕ) :
    A.anVal f N 1 = List.replicate N 0 := by
  show (List.range N).map _ = _
  have h : ∀ k ∈ List.range N,
      (2 / A.period) * trapz
        ((A.tGrid 1).map fun tv => f tv * Real.cos (((k : ℝ) + 1) * A.omega0 * tv))
        (A.tGrid 1) = (fun _ : ℕ => (0 : ℝ)) k := by
    intro k _
    have h0 : trapz
        ((A.tGrid 1).map fun tv => f tv * Real.cos (((k : ℝ) + 1) * A.omega0 * tv))
        (A.tGrid 1) = 0 := rfl
    rw [h0, mul_zero]
  rw [List.map_congr_left h, List.map_const', List.length_range]

theorem bnVal_one (A : FourierSeriesAnalyzer) (f : ℝ → ℝ) (N : ℕ) :
    A.bnVal f N 1 = List.replicate N 0 := by
  show (List.range N).map _ = _
  have h : ∀ k ∈ List.range N,
      (2 / A.period) * trapz
        ((A.tGrid 1).map fun tv => f tv * Real.sin (((k : ℝ) + 1) * A.omega0 * tv))
        (A.tGrid 1) = (fun _ : ℕ => (0 : ℝ)) k := by
    intro k _
    have h0 : trapz
        ((A.tGrid 1).map fun tv => f tv * Real.sin (((k : ℝ) + 1) * A.omega0 * tv))
        (A.tGrid 1) = 0 := rfl
    rw [h0, mul_zero]
  rw [List.map_congr_left h, List.map_const', List.length_range]

theorem compute_coefficients_one_point (A : FourierSeriesAnalyzer) (f : ℝ → ℝ)
    (N : ℤ) (hN : 0 ≤ N) :
    A.compute_coefficients f N 1 =
      .ok (0, List.replicate N.toNat 0, List.replicate N.toNat 0) := by
  show (if N < 0 then Except.error PyErr.valueError else
    Except.ok (A.a0Val f 1, A.anVal f N.toNat 1, A.bnVal f N.toNat 1)) = _
  rw [if_neg (not_lt.mpr hN), a0Val_one, anVal_one, bnVal_one]

/-- Counterexample to C5: the engine does not report an error for a
sample count below 2 — compute_coefficients with n_points = 1 silently
proceeds and returns a degenerate result — and a negative (non-positive)
period is accepted by the constructor without any error. -/
theorem claim_C5_counterexample :
    FourierSeriesAnalyzer.init (-1) = .ok ⟨-1⟩ ∧
    (FourierSeriesAnalyzer.mk 1).compute_coefficients (fun _ => 1) 3 1 =
      .ok (0, [0, 0, 0], [0, 0, 0]) := by
  constructor
  · show (if (-1 : ℝ) = 0 then Except.error PyErr.zeroDivisionError
      else Except.ok (FourierSeriesAnalyzer.mk (-1))) = _
    rw [if_neg (by norm_num)]
  · have h := compute_coefficients_one_point (FourierSeriesAnalyzer.mk 1)
      (fun _ => 1) 3 (by norm_num)
    simpa using h

/-- C5 amended: the engine performs no dedicated parameter validation.
Of the listed invalid inputs, only some surface as errors, raised by the
underlying operations: a zero period raises ZeroDivisionError at
construction, a negative harmonic count raises ValueError inside
compute_coefficients, and mismatched metrics array lengths raise
ValueError from broadcasting when neither length is 1.  A negative
period is accepted, and a sample count below 2 is accepted silently:
compute_coefficients proceeds and returns a0 = 0 and all-zero
coefficient arrays (the one-point trapezoidal integrals are 0). -/
theorem claim_C5_amended :
    FourierSeriesAnalyzer.init 0 = .error .zeroDivisionError ∧
    (∀ p : ℝ, p ≠ 0 → FourierSeriesAnalyzer.init p = .ok ⟨p⟩) ∧
    (∀ (A : FourierSeriesAnalyzer) (f : ℝ → ℝ) (N : ℤ) (np : ℕ),
      N < 0 → A.compute_coefficients f N np = .error .valueError) ∧
    (∀ o r : List ℝ, o.length ≠ r.length → o.length ≠ 1 → r.length ≠ 1 →
      compute_metrics o r = .error .valueError) ∧
    (∀ (A : FourierSeriesAnalyzer) (f : ℝ → ℝ) (N : ℤ), 0 ≤ N →
      A.compute_coefficients f N 1 =
        .ok (0, List.replicate N.toNat 0, List.replicate N.toNat 0)) := by
  refine ⟨?_, ?_, ?_, ?_, ?_⟩
  · show (if (0 : ℝ) = 0 then Except.error PyErr.zeroDivisionError
      else Except.ok (FourierSeriesAnalyzer.mk 0)) = _
    rw [if_pos rfl]
  · intro p hp
    show (if p = 0 then Except.error PyErr.zeroDivisionError
      else Except.ok (FourierSeriesAnalyzer.mk p)) = _
    rw [if_neg hp]
  · intro A f N np hN
    show (if N < 0 then Except.error PyErr.valueError else
      Except.ok (A.a0Val f np, A.anVal f N.toNat np, A.bnVal f N.toNat np)) = _
    rw [if_pos hN]
  · intro o r h1 h2 h3
    show (if o.length ≠ r.length ∧ o.length ≠ 1 ∧ r.length ≠ 1 then
      Except.error PyErr.valueError else _) = _
    rw [if_pos ⟨h1, h2, h3⟩]
  · intro A f N hN
    exact compute_coefficients_one_point A f N hN

/-- Witness for the amended C5 at concrete inputs. -/
theorem claim_C5_witness :
    ((-1 : ℝ) ≠ 0 ∧ FourierSeriesAnalyzer.init (-1) = .ok ⟨-1⟩) ∧
    ((-2 : ℤ) < 0 ∧
      (FourierSeriesAnalyzer.mk 1).compute_coefficients (fun _ => 0) (-2) 5 =
        .error .valueError) ∧
    ([(1 : ℝ), 2, 3].length ≠ [(1 : ℝ), 2].length ∧
      compute_metrics [(1 : ℝ), 2, 3] [(1 : ℝ), 2] = .error .valueError) ∧
    ((0 : ℤ) ≤ 2 ∧
      (FourierSeriesAnalyzer.mk 1).compute_coefficients (fun _ => 0) 2 1 =
        .ok (0, List.replicate (2 : ℤ).toNat 0, List.replicate (2 : ℤ).toNat 0)) :=
  ⟨⟨by norm_num, claim_C5_amended.2.1 (-1) (by norm_num)⟩,
   ⟨by norm_num, claim_C5_amended.2.2.1 (FourierSeriesAnalyzer.mk 1)
      (fun _ => 0) (-2) 5 (by norm_num)⟩,
   ⟨by norm_num, claim_C5_amended.2.2.2.1 [(1 : ℝ), 2, 3] [(1 : ℝ), 2]
      (by norm_num) (by norm_num) (by norm_num)⟩,
   ⟨by norm_num, claim_C5_amended.2.2.2.2 (FourierSeriesAnalyzer.mk 1)
      (fun _ => 0) 2 (by norm_num)⟩⟩

theorem bcastPair_eq_self (o r : List ℝ) (h : o.length = r.length) :
    bcastPair o r = (o, r) := by
  show (if o.length = 1 then (List.replicate r.length (o.getD 0 0), r)
    else if r.length = 1 then (o, List.replicate o.length (r.getD 0 0))
    else (o, r)) = (o, r)
  by_cases h1 : o.length = 1
  · rw [if_pos h1]
    obtain ⟨a, ha⟩ := List.length_eq_one.mp h1
    subst ha
    have h2 : List.replicate r.length ([a].getD 0 0) = [a] := by
      rw [← h]
      rfl
    rw [h2]
  · rw [if_neg h1]
    have h2 : ¬ r.length = 1 := fun hr => h1 (by omega)
    rw [if_neg h2]

theorem zipWith_self (f : ℝ → ℝ → ℝ) (l : List ℝ) :
    List.zipWith f l l = l.map fun a => f a a := by
  induction l with
  | nil => rfl
  | cons a l ih => simp [ih]

theorem npMax_map_zero (l : List ℝ) : npMax (l.map fun _ => (0 : ℝ)) = 0 := by
  cases l with
  | nil => rfl
  | cons a l =>
      show (l.map fun _ => (0 : ℝ)).foldl max 0 = 0
      induction l with
      | nil => rfl
      | cons b m ihm =>
          show ((m.map fun _ => (0 : ℝ)).foldl max (max 0 0)) = 0
          rw [max_self]
          exact ihm

theorem compute_metrics_self (x : List ℝ) (hx : x ≠ []) :
    compute_metrics x x =
      .ok { rms_error := 0, max_error := 0,
            snr_db := 20 * Real.logb 10 (npStd x / metricsEps),
            relative_error := 0 } := by
  have hz : List.zipWith (fun a b => (a - b) ^ 2) x x = x.map fun _ => (0 : ℝ) := by
    rw [zipWith_self]
    exact List.map_congr_left fun a _ => by ring
  have hz2 : List.zipWith (fun a b => |a - b|) x x = x.map fun _ => (0 : ℝ) := by
    rw [zipWith_self]
    exact List.map_congr_left fun a _ => by simp
  have hmean0 : npMean (x.map fun _ => (0 : ℝ)) = 0 := by
    simp [npMean]
  have hg1 : ¬ (x.length ≠ x.length ∧ x.length ≠ 1 ∧ x.length ≠ 1) := by simp
  have hg2 : ¬ ((x, x).1.length = 0) := by
    simpa [List.length_eq_zero] using hx
  simp only [compute_metrics]
  rw [bcastPair_eq_self x x rfl, if_neg hg1, if_neg hg2]
  rw [hz, hz2, hmean0, Real.sqrt_zero, npMax_map_zero, zero_div, zero_add]

/-- Counterexample to C6: for a constant array the standard deviation is
0, so snr_db is 20*log10(0): the argument of log10 is 0, outside the
domain of the logarithm, and the floating-point evaluation in the code
yields negative infinity — not a large finite number. -/
theorem claim_C6_counterexample :
    npStd [(1 : ℝ), 1] = 0 ∧
    compute_metrics [(1 : ℝ), 1] [(1 : ℝ), 1] =
      .ok { rms_error := 0, max_error := 0,
            snr_db := 20 * Real.logb 10 0, relative_error := 0 } ∧
    ¬ (0 < npStd [(1 : ℝ), 1] / metricsEps) := by
  have hstd : npStd [(1 : ℝ), 1] = 0 := by
    have hm : npMean [(1 : ℝ), 1] = 1 := by norm_num [npMean]
    have : npMean ([(1 : ℝ), 1].map fun v => (v - npMean [(1 : ℝ), 1]) ^ 2) = 0 := by
      rw [hm]
      norm_num [npMean]
    show Real.sqrt (npMean ([(1 : ℝ), 1].map fun v => (v - npMean [(1 : ℝ), 1]) ^ 2)) = 0
    rw [this, Real.sqrt_zero]
  refine ⟨hstd, ?_, ?_⟩
  · have h := compute_metrics_self [(1 : ℝ), 1] (by simp)
    rw [hstd, zero_div] at h
    exact h
  · rw [hstd, zero_div]
    exact lt_irrefl 0

/-- C6 amended: for every non-empty x with positive standard deviation,
compute_metrics(x, x) yields rms_error = 0, max_error = 0,
relative_error = 0 and snr_db = 20*log10(std(x)/eps) with a positive
log10 argument (hence a finite value); for constant x the standard
deviation is 0 and the snr_db becomes log10 of 0, which is minus
infinity in floating point. -/
theorem claim_C6_amended (x : List ℝ) (hx : x ≠ []) (hstd : 0 < npStd x) :
    compute_metrics x x =
      .ok { rms_error := 0, max_error := 0,
            snr_db := 20 * Real.logb 10 (npStd x / metricsEps),
            relative_error := 0 } ∧
    0 < npStd x / metricsEps := by
  refine ⟨compute_metrics_self x hx, ?_⟩
  exact div_pos hstd (by norm_num [metricsEps])

/-- Witness for the amended C6 at x = [0, 1]. -/
theorem claim_C6_witness :
    ([(0 : ℝ), 1] ≠ [] ∧ 0 < npStd [(0 : ℝ), 1]) ∧
    (compute_metrics [(0 : ℝ), 1] [(0 : ℝ), 1] =
      .ok { rms_error := 0, max_error := 0,
            snr_db := 20 * Real.logb 10 (npStd [(0 : ℝ), 1] / metricsEps),
            relative_error := 0 } ∧
    0 < npStd [(0 : ℝ), 1] / metricsEps) := by
  have hx : [(0 : ℝ), 1] ≠ [] := by simp
  have hstd : 0 < npStd [(0 : ℝ), 1] := by
    have h : (0 : ℝ) < npMean ([(0 : ℝ), 1].map fun v => (v - npMean [(0 : ℝ), 1]) ^ 2) := by
      norm_num [npMean]
    exact Real.sqrt_pos.mpr h
  exact ⟨⟨hx, hstd⟩, claim_C6_amended [(0 : ℝ), 1] hx hstd⟩

/-- C10: get_harmonic_analysis succeeds on every pair of equal-length
coefficient arrays, including the empty pair: it returns a record with
fundamental_power equal to power[0] when N is at least 1 and equal to 0
when N = 0, thd equal to 0 when N = 0, and an empty dominant_harmonics
sequence when N = 0. -/
theorem claim_C10 (an bn : List ℝ) (h : an.length = bn.length) :
    ∃ H, get_harmonic_analysis an bn = .ok H ∧
      (1 ≤ an.length → H.fundamental_power = H.power.getD 0 0) ∧
      (an.length = 0 →
        H.fundamental_power = 0 ∧ H.thd = 0 ∧ H.dominant_harmonics = []) := by
  have hguard : ¬ (an.length ≠ bn.length ∧ an.length ≠ 1 ∧ bn.length ≠ 1) := by
    simp [h]
  simp only [get_harmonic_analysis]
  rw [if_neg hguard, bcastPair_eq_self an bn h]
  refine ⟨_, rfl, ?_, ?_⟩
  · intro h1
    have hlen : 0 <
        ((List.zipWith (fun a b => Real.sqrt (a ^ 2 + b ^ 2)) an bn).map
          fun m => m ^ 2).length := by
      rw [List.length_map, List.length_zipWith]
      omega
    show (if 0 < ((List.zipWith (fun a b => Real.sqrt (a ^ 2 + b ^ 2)) an bn).map
        fun m => m ^ 2).length then _ else _) = _
    rw [if_pos hlen]
  · intro h0
    obtain rfl : an = [] := List.length_eq_zero.mp h0
    obtain rfl : bn = [] := List.length_eq_zero.mp (h ▸ h0)
    exact ⟨rfl, rfl, rfl⟩

/-- Witness for C10 at the empty coefficient pair. -/
theorem claim_C10_witness :
    ([] : List ℝ).length = ([] : List ℝ).length ∧
    (∃ H, get_harmonic_analysis ([] : List ℝ) ([] : List ℝ) = .ok H ∧
      (1 ≤ ([] : List ℝ).length → H.fundamental_power = H.power.getD 0 0) ∧
      (([] : List ℝ).length = 0 →
        H.fundamental_power = 0 ∧ H.thd = 0 ∧ H.dominant_harmonics = [])) :=
  ⟨rfl, claim_C10 [] [] rfl⟩

theorem jsonSafe_pyList (xs : List PyVal) :
    (PyVal.pyList xs).jsonSafe = xs.all PyVal.jsonSafe := by
  rw [PyVal.jsonSafe]
  rcases hall : xs.all PyVal.jsonSafe with _ | _
  · rw [List.all_eq_false] at hall
    obtain ⟨x, hx, hfx⟩ := hall
    exact List.all_eq_false.mpr ⟨⟨x, hx⟩, List.mem_attach _ _, hfx⟩
  · rw [List.all_eq_true] at hall
    exact List.all_eq_true.mpr fun y _ => hall y.1 y.2

theorem jsonSafe_pyDict (fs : List (String × PyVal)) :
    (PyVal.pyDict fs).jsonSafe = fs.all fun f => f.2.jsonSafe := by
  rw [PyVal.jsonSafe]
  rcases hall : fs.all (fun f => f.2.jsonSafe) with _ | _
  · rw [List.all_eq_false] at hall
    obtain ⟨x, hx, hfx⟩ := hall
    exact List.all_eq_false.mpr ⟨⟨x, hx⟩, List.mem_attach _ _, hfx⟩
  · rw [List.all_eq_true] at hall
    exact List.all_eq_true.mpr fun y _ => hall y.1 y.2

theorem jsonSafe_floatList (xs : List ℝ) :
    (PyVal.pyList (xs.map PyVal.pyFloat)).jsonSafe = true := by
  rw [jsonSafe_pyList, List.all_eq_true]
  intro v hv
  obtain ⟨y, _, rfl⟩ := List.mem_map.mp hv
  rw [PyVal.jsonSafe]

/-- The record export_data builds when both subcalls succeed with
analysis payload H and metrics payload M. -/
noncomputable def exportRecord (t original reconstructed : List ℝ) (a0 : ℝ)
    (an bn : List ℝ) (H : HarmonicAnalysis) (M : MetricsResult) : PyVal :=
  .pyDict [
    ("time", .pyList (t.map .pyFloat)),
    ("original_signal", .pyList (original.map .pyFloat)),
    ("reconstructed_signal", .pyList (reconstructed.map .pyFloat)),
    ("coefficients", .pyDict [
      ("a0", .pyFloat a0),
      ("an", .pyList (an.map .pyFloat)),
      ("bn", .pyList (bn.map .pyFloat))]),
    ("analysis", .pyDict [
      ("magnitude", .ndarrayF H.magnitude),
      ("phase", .ndarrayF H.phase),
      ("power", .ndarrayF H.power),
      ("total_power", .pyFloat H.total_power),
      ("power_percentage", .ndarrayF H.power_percentage),
      ("dominant_harmonics", .ndarrayI H.dominant_harmonics),
      ("fundamental_power", .pyFloat H.fundamental_power),
      ("thd", .pyFloat H.thd)]),
    ("metrics", .pyDict [
      ("rms_error", .pyFloat M.rms_error),
      ("max_error", .pyFloat M.max_error),
      ("snr_db", .pyFloat M.snr_db),
      ("relative_error", .pyFloat M.relative_error)])]

theorem export_data_eq (A : FourierSeriesAnalyzer) (t o r : List ℝ) (a0 : ℝ)
    (an bn : List ℝ) (H : HarmonicAnalysis) (M : MetricsResult)
    (hga : get_harmonic_analysis an bn = .ok H)
    (hm : compute_metrics o r = .ok M) :
    A.export_data t o r a0 an bn = .ok (exportRecord t o r a0 an bn H M) := by
  simp only [FourierSeriesAnalyzer.export_data, hga, hm, bind, Except.bind,
    pure, Except.pure, exportRecord]

theorem exportRecord_not_jsonSafe (t o r : List ℝ) (a0 : ℝ) (an bn : List ℝ)
    (H : HarmonicAnalysis) (M : MetricsResult) :
    (exportRecord t o r a0 an bn H M).jsonSafe = false := by
  simp [exportRecord, jsonSafe_pyDict, jsonSafe_floatList, PyVal.jsonSafe]

theorem get_harmonic_analysis_ok (an bn : List ℝ) (h : an.length = bn.length) :
    ∃ H, get_harmonic_analysis an bn = .ok H := by
  simp only [get_harmonic_analysis]
  rw [if_neg (by simp [h])]
  exact ⟨_, rfl⟩

theorem compute_metrics_ok (o r : List ℝ) (hor : o.length = r.length)
    (ho : o ≠ []) :
    ∃ M, compute_metrics o r = .ok M := by
  simp only [compute_metrics]
  rw [if_neg (by simp [hor]), bcastPair_eq_self o r hor,
    if_neg (by simpa [List.length_eq_zero] using ho)]
  exact ⟨_, rfl⟩

/-- Counterexample to C8: at a concrete valid input the record returned
by export_data is not JSON-encodable, because the analysis field still
holds engine-internal numpy arrays; so not every numeric leaf is a plain
float or plain list. -/
theorem claim_C8_counterexample :
    Except.map PyVal.jsonSafe
      ((FourierSeriesAnalyzer.mk 1).export_data [0] [1] [1] 1 [1] [1]) =
      .ok false := by
  obtain ⟨H, hH⟩ := get_harmonic_analysis_ok [(1 : ℝ)] [(1 : ℝ)] rfl
  obtain ⟨M, hM⟩ := compute_metrics_ok [(1 : ℝ)] [(1 : ℝ)] rfl (by simp)
  rw [export_data_eq _ _ _ _ _ _ _ H M hH hM]
  show Except.ok ((exportRecord [0] [1] [1] 1 [1] [1] H M).jsonSafe) = Except.ok false
  rw [exportRecord_not_jsonSafe]

/-- C8 amended: for valid inputs export_data returns the record with
fields time, original_signal, reconstructed_signal, coefficients,
analysis and metrics; the time, signal, coefficient and metrics leaves
are plain floats or plain lists of floats, but the analysis field keeps
the engine-internal arrays produced by get_harmonic_analysis, so the
record as a whole is not encodable as a structured text format. -/
theorem claim_C8_amended (A : FourierSeriesAnalyzer) (t o r : List ℝ) (a0 : ℝ)
    (an bn : List ℝ) (hab : an.length = bn.length) (hor : o.length = r.length)
    (ho : o ≠ []) :
    ∃ H M,
      get_harmonic_analysis an bn = .ok H ∧
      compute_metrics o r = .ok M ∧
      A.export_data t o r a0 an bn = .ok (exportRecord t o r a0 an bn H M) ∧
      (PyVal.pyList (t.map PyVal.pyFloat)).jsonSafe = true ∧
      (PyVal.pyList (o.map PyVal.pyFloat)).jsonSafe = true ∧
      (PyVal.pyList (r.map PyVal.pyFloat)).jsonSafe = true ∧
      (PyVal.pyDict [("a0", PyVal.pyFloat a0),
        ("an", PyVal.pyList (an.map PyVal.pyFloat)),
        ("bn", PyVal.pyList (bn.map PyVal.pyFloat))]).jsonSafe = true ∧
      (PyVal.pyDict [("rms_error", PyVal.pyFloat M.rms_error),
        ("max_error", PyVal.pyFloat M.max_error),
        ("snr_db", PyVal.pyFloat M.snr_db),
        ("relative_error", PyVal.pyFloat M.relative_error)]).jsonSafe = true ∧
      (exportRecord t o r a0 an bn H M).jsonSafe = false := by
  obtain ⟨H, hH⟩ := get_harmonic_analysis_ok an bn hab
  obtain ⟨M, hM⟩ := compute_metrics_ok o r hor ho
  refine ⟨H, M, hH, hM, export_data_eq A t o r a0 an bn H M hH hM,
    jsonSafe_floatList t, jsonSafe_floatList o, jsonSafe_floatList r, ?_, ?_,
    exportRecord_not_jsonSafe t o r a0 an bn H M⟩
  · simp [jsonSafe_pyDict, jsonSafe_floatList, PyVal.jsonSafe]
  · simp [jsonSafe_pyDict, PyVal.jsonSafe]

/-- Witness for the amended C8 at concrete inputs with empty coefficient
arrays. -/
theorem claim_C8_witness :
    (([] : List ℝ).length = ([] : List ℝ).length ∧
      [(0 : ℝ)].length = [(0 : ℝ)].length ∧ [(0 : ℝ)] ≠ []) ∧
    (∃ H M,
      get_harmonic_analysis ([] : List ℝ) ([] : List ℝ) = .ok H ∧
      compute_metrics [(0 : ℝ)] [(0 : ℝ)] = .ok M ∧
      (FourierSeriesAnalyzer.mk 1).export_data [(0 : ℝ)] [(0 : ℝ)] [(0 : ℝ)] 0
          ([] : List ℝ) ([] : List ℝ) =
        .ok (exportRecord [(0 : ℝ)] [(0 : ℝ)] [(0 : ℝ)] 0 [] [] H M) ∧
      (PyVal.pyList ([(0 : ℝ)].map PyVal.pyFloat)).jsonSafe = true ∧
      (PyVal.pyList ([(0 : ℝ)].map PyVal.pyFloat)).jsonSafe = true ∧
      (PyVal.pyList ([(0 : ℝ)].map PyVal.pyFloat)).jsonSafe = true ∧
      (PyVal.pyDict [("a0", PyVal.pyFloat 0),
        ("an", PyVal.pyList (([] : List ℝ).map PyVal.pyFloat)),
        ("bn", PyVal.pyList (([] : List ℝ).map PyVal.pyFloat))]).jsonSafe = true ∧
      (PyVal.pyDict [("rms_error", PyVal.pyFloat M.rms_error),
        ("max_error", PyVal.pyFloat M.max_error),
        ("snr_db", PyVal.pyFloat M.snr_db),
        ("relative_error", PyVal.pyFloat M.relative_error)]).jsonSafe = true ∧
      (exportRecord [(0 : ℝ)] [(0 : ℝ)] [(0 : ℝ)] 0 [] [] H M).jsonSafe = false) :=
  ⟨⟨rfl, rfl, by simp⟩,
    claim_C8_amended (FourierSeriesAnalyzer.mk 1) [(0 : ℝ)] [(0 : ℝ)] [(0 : ℝ)] 0
      [] [] rfl rfl (by simp)⟩

end FourierLogic
